import Mathlib

/-!
Shallow embedding of the `ibmcloud-cos-rs` client, covering the
request-signing canonicalizer (`src/hmac.rs`), the multipart upload
orchestration (`src/multipartupload.rs`, `src/bin/multipart-upload.rs`)
and the paginated object-listing iterator (`src/cos.rs`), together with
theorems settling the specification claims about them.

Rust `String`/`&str` is modelled as Lean `String` (Rust string ordering is
byte-lexicographic on UTF-8, which coincides with Lean's code-point
lexicographic `String` order since UTF-8 preserves code-point order).
Byte buffers (`Vec<u8>`, header values) are `List Nat`.  The SHA-256 and
HMAC-SHA256 primitives come from external crates (`sha2`, `hmac`), not
from this repository, so they are abstracted as function parameters; the
raw MAC bytes they return are only ever fed back into another MAC call or
hex-encoded, so they are modelled by an opaque `String` value.
-/

/-- Lexicographic `≤` on character lists, comparing code points.  This is
Rust's `String` ordering: Rust compares UTF-8 bytes lexicographically and
UTF-8 preserves code-point order. -/
def listLeB : List Char → List Char → Bool
  | [], _ => true
  | _ :: _, [] => false
  | a :: as, b :: bs =>
    if a.toNat < b.toNat then true
    else if b.toNat < a.toNat then false
    else listLeB as bs

/-- A `BTreeMap<String, String>`: iteration visits entries in ascending
(byte-lexicographic) key order.  `keyLe` is that iteration order on
entries. -/
def keyLe (p q : String × String) : Prop := listLeB p.1.data q.1.data = true

instance : DecidableRel keyLe := fun p q =>
  inferInstanceAs (Decidable (listLeB p.1.data q.1.data = true))

/-- Iteration order of a `BTreeMap<String, String>` built from the given
entries (for maps, i.e. association lists with pairwise distinct keys,
this is exactly ascending key order). -/
def btreeIter (m : List (String × String)) : List (String × String) :=
  List.insertionSort keyLe m

/-- UTF-8 encoding of one character's code point (the byte sequence Rust's
`str::as_bytes` exposes for it). -/
def utf8Bytes (c : Char) : List Nat :=
  let n := c.toNat
  if n < 0x80 then [n]
  else if n < 0x800 then [0xC0 + n / 64, 0x80 + n % 64]
  else if n < 0x10000 then [0xE0 + n / 4096, 0x80 + n / 64 % 64, 0x80 + n % 64]
  else [0xF0 + n / 262144, 0x80 + n / 4096 % 64, 0x80 + n / 64 % 64, 0x80 + n % 64]

/-- The UTF-8 bytes of a string (`str::as_bytes`). -/
def strBytes (s : String) : List Nat :=
  (s.data.map utf8Bytes).flatten

/-- ASCII lower-casing of a string, character by character (`str::to_lowercase`;
the inputs this client lower-cases are ASCII header names, for which Rust's
Unicode lower-casing agrees with per-character ASCII lower-casing). -/
def lowerStr (s : String) : String :=
  String.mk (s.data.map Char.toLower)

/-- `urlencoding::encode` keeps ASCII alphanumerics and `-`, `.`, `_`, `~`
unchanged; every other byte becomes `%XX` with upper-case hex. -/
def isUrlUnreserved (b : Nat) : Bool :=
  (0x41 ≤ b && b ≤ 0x5A) || (0x61 ≤ b && b ≤ 0x7A) ||
    (0x30 ≤ b && b ≤ 0x39) || b == 0x2D || b == 0x2E || b == 0x5F || b == 0x7E

/-- Upper-case hexadecimal digit for `n < 16`. -/
def hexDigitUpper (n : Nat) : Char :=
  if n < 10 then Char.ofNat (0x30 + n) else Char.ofNat (0x37 + n)

/-- Percent-encode one byte as `urlencoding::encode` does. -/
def encodeByte (b : Nat) : String :=
  if isUrlUnreserved b then String.singleton (Char.ofNat b)
  else "%" ++ String.singleton (hexDigitUpper (b / 16)) ++ String.singleton (hexDigitUpper (b % 16))

/-- `urlencoding::encode` on a whole string (UTF-8 bytes, byte by byte). -/
def urlencode (s : String) : String :=
  String.join ((strBytes s).map encodeByte)

/-- `src/hmac.rs` constant `SIGTYPENAME`. -/
def SIGTYPENAME : String := "AWS4-HMAC-SHA256"

/-- `src/hmac.rs::canonicalize_uri`: returns the path unmodified. -/
def canonicalize_uri (path : String) : String := path

/-- `src/hmac.rs::canonicalize_query_params`: iterates the `BTreeMap` in
key order, renders `encode(key)=encode(value)` pairs and joins with `&`. -/
def canonicalize_query_params (params : List (String × String)) : String :=
  String.intercalate "&"
    ((btreeIter params).map (fun p => urlencode p.1 ++ "=" ++ urlencode p.2))

/-- `src/hmac.rs::canonicalize_headers`: iterates the `BTreeMap` in key
order; the first component accumulates `writeln!(cheaders, "{}:{}",
key.to_lowercase(), value)` lines, the second is `header_list.join(";")`
where `header_list` receives `key.to_string()` (the original casing). -/
def canonicalize_headers (headers : List (String × String)) : String × String :=
  (String.join ((btreeIter headers).map (fun p => lowerStr p.1 ++ ":" ++ p.2 ++ "\n")),
   String.intercalate ";" ((btreeIter headers).map (fun p => p.1)))

/-- UTC timestamp as used by `sign` (chrono `DateTime<Utc>` broken into
calendar/clock fields; only formatting is needed). -/
structure UtcTime where
  year : Nat
  month : Nat
  day : Nat
  hour : Nat
  minute : Nat
  second : Nat
deriving DecidableEq, Repr

/-- Zero-pad a numeral to width `w` (chrono's `%Y`, `%m`, ... formatting). -/
def padNum (w : Nat) (n : Nat) : String :=
  let s := toString n
  String.mk (List.replicate (w - s.length) '0') ++ s

/-- chrono format string `%Y%m%dT%H%M%SZ`. -/
def fmtTimestamp (d : UtcTime) : String :=
  padNum 4 d.year ++ padNum 2 d.month ++ padNum 2 d.day ++ "T" ++
    padNum 2 d.hour ++ padNum 2 d.minute ++ padNum 2 d.second ++ "Z"

/-- chrono format string `%Y%m%d`. -/
def fmtDatestamp (d : UtcTime) : String :=
  padNum 4 d.year ++ padNum 2 d.month ++ padNum 2 d.day

/-- `src/hmac.rs::sign`, transcribed line by line.  `hmacF key data`
stands for `hmac(key, data)` (HMAC-SHA256 from the `hmac` crate),
`hexF` for `hex::encode` on MAC bytes, and `sha256hexF` for
`hexdigest` (= `hex::encode(Sha256::digest(data))`); all three are
external-crate primitives passed in as parameters. -/
def sign (hmacF : String → String → String) (hexF sha256hexF : String → String)
    (access_key_id secret_access_key : String) (date : UtcTime)
    (http_method path : String)
    (query_params headers : List (String × String)) (payload_hash : String) : String :=
  let region := "us-standard"
  let creq :=
    http_method ++ "\n" ++
    canonicalize_uri path ++ "\n" ++
    canonicalize_query_params query_params ++ "\n" ++
    (canonicalize_headers headers).1 ++ "\n" ++
    (canonicalize_headers headers).2 ++ "\n" ++
    payload_hash
  let hashed_creq := sha256hexF creq
  let timestamp := fmtTimestamp date
  let datestamp := fmtDatestamp date
  let scope := datestamp ++ "/" ++ region ++ "/s3/aws4_request"
  let string_to_sign := SIGTYPENAME ++ "\n" ++ timestamp ++ "\n" ++ scope ++ "\n" ++ hashed_creq
  let datekey := hmacF ("AWS4" ++ secret_access_key) datestamp
  let dateregionkey := hmacF datekey region
  let dateregionservicekey := hmacF dateregionkey "s3"
  let signing_key := hmacF dateregionservicekey "aws4_request"
  let sig := hexF (hmacF signing_key string_to_sign)
  SIGTYPENAME ++ " " ++
    "Credential=" ++ access_key_id ++ "/" ++ scope ++ "," ++
    "SignedHeaders=" ++ (canonicalize_headers headers).2 ++ "," ++
    "Signature=" ++ sig

/-- The signing algorithm as the specification words it (§4.2): string to
sign is three newline-terminated lines — algorithm constant, timestamp
`YYYYMMDD'T'HHMMSS'Z'`, scope `YYYYMMDD/REGION/SERVICE/aws4_request` —
followed by the hex SHA-256 of the canonical request; signing key chain
`key0 = "AWS4" + secret`, `key1 = HMAC(key0, date)`, `key2 = HMAC(key1,
region)`, `key3 = HMAC(key2, service)`, `signing_key = HMAC(key3,
"aws4_request")`; `signature = hex(HMAC(signing_key, string_to_sign))`;
header `"<ALGO> Credential=<akid>/<scope>,SignedHeaders=<sh>,Signature=<sig>"`.
Written from the spec text, to be compared with `sign`. -/
def signSpec (hmacF : String → String → String) (hexF sha256hexF : String → String)
    (access_key_id secret_access_key : String) (date : UtcTime)
    (http_method path : String)
    (query_params headers : List (String × String)) (payload_hash : String) : String :=
  let region := "us-standard"
  let service := "s3"
  let canonical_request :=
    http_method ++ "\n" ++ canonicalize_uri path ++ "\n" ++
      canonicalize_query_params query_params ++ "\n" ++
      (canonicalize_headers headers).1 ++ "\n" ++
      (canonicalize_headers headers).2 ++ "\n" ++ payload_hash
  let scope := fmtDatestamp date ++ "/" ++ region ++ "/" ++ service ++ "/aws4_request"
  let string_to_sign :=
    SIGTYPENAME ++ "\n" ++ fmtTimestamp date ++ "\n" ++ scope ++ "\n" ++
      sha256hexF canonical_request
  let key0 := "AWS4" ++ secret_access_key
  let key1 := hmacF key0 (fmtDatestamp date)
  let key2 := hmacF key1 region
  let key3 := hmacF key2 service
  let signing_key := hmacF key3 "aws4_request"
  let signature := hexF (hmacF signing_key string_to_sign)
  SIGTYPENAME ++ " Credential=" ++ access_key_id ++ "/" ++ scope ++
    ",SignedHeaders=" ++ (canonicalize_headers headers).2 ++
    ",Signature=" ++ signature

/-- One object descriptor of `src/cos.rs::Contents`. -/
structure Contents where
  key : String
  last_modified : String
  etag : String
  size : Nat
  storage_class : String
deriving DecidableEq, Repr

/-- `src/cos.rs::ListBucketResult`: one deserialized listing page. -/
structure ListBucketResult where
  contents : List Contents
  key_count : Nat
  max_keys : Nat
  next_token : Option String
deriving DecidableEq, Repr

/-- Does `pat` start the list `s`? (helper for substring search). -/
def startsWithB : List Char → List Char → Bool
  | [], _ => true
  | _ :: _, [] => false
  | a :: as, b :: bs => a == b && startsWithB as bs

/-- Does `pat` occur contiguously inside `s`? -/
def hasSubB (pat : List Char) : List Char → Bool
  | [] => startsWithB pat []
  | b :: rest => startsWithB pat (b :: rest) || hasSubB pat rest

/-- Rust `str::contains` on string slices. -/
def strContainsSub (s pat : String) : Bool := hasSubB pat.data s.data

/-- The response-parsing tail of `src/cos.rs::_list_objects` (lines
154–164): the outcome of `from_str::<ListBucketResult>` — the parse
outcome is the input here, HTTP transport and XML parsing being external
— is matched; a parse error whose rendering contains
``missing field `Contents` `` becomes the distinguished error
`"No contents in bucket"`, any other parse error is surfaced unchanged
(boxed), and a successful parse is returned as-is. -/
def handleListParse (parsed : Except String ListBucketResult) :
    Except String ListBucketResult :=
  match parsed with
  | .ok v => .ok v
  | .error e =>
    if strContainsSub e "missing field `Contents`" then .error "No contents in bucket"
    else .error e

/-- `reqwest::StatusCode::is_success`: 2xx. -/
def is_success (status : Nat) : Bool := 200 ≤ status && status < 300

/-- An HTTP response as the client observes it: status code, header map
(names normalized to lower case by the HTTP library, values raw bytes)
and body text. -/
structure HttpResponse where
  status : Nat
  headers : List (String × List Nat)
  body : String
deriving DecidableEq, Repr

/-- `src/cos.rs::check_response`: non-2xx statuses become a uniform
error carrying status and body; 2xx responses pass through. -/
def check_response (r : HttpResponse) : Except String HttpResponse :=
  if is_success r.status then .ok r
  else .error ("request failed: code='" ++ toString r.status ++ "' body='" ++ r.body ++ "'")

/-- Header lookup (`HeaderMap` indexing resolves the `ETAG` constant to
the lower-cased name `"etag"`; stored names are already lower-cased). -/
def headerGet (hs : List (String × List Nat)) (name : String) : Option (List Nat) :=
  match hs with
  | [] => none
  | (n, v) :: rest => if n = name then some v else headerGet rest name

/-- `http::HeaderValue::to_str` accepts only visible ASCII (and tab). -/
def visibleAscii (b : Nat) : Bool := (32 ≤ b && b < 127) || b == 9

/-- `HeaderValue::to_str`: `some` with the decoded text iff every byte is
visible ASCII. -/
def headerValueToStr (bytes : List Nat) : Option String :=
  if bytes.all visibleAscii then some (String.mk (bytes.map Char.ofNat)) else none

/-- One part record of `src/multipartupload.rs::Part` (named `UploadPart`
here; the source's name `Part` is taken by Mathlib). -/
structure UploadPart where
  etag : String
  part_number : Nat
deriving DecidableEq, Repr

/-- The response-handling tail of `src/multipartupload.rs::upload_part`
(lines 90–98), after the PUT returns `resp`.  The outer `none` models a
panic: `resp.headers()[reqwest::header::ETAG]` panics when the header is
absent, and `.to_str().unwrap()` panics when the value is not visible
ASCII; neither is a typed error. -/
def upload_part_result (resp : HttpResponse) (sequence_number : Nat) :
    Option (Except String UploadPart) :=
  match check_response resp with
  | .error e => some (.error e)
  | .ok r =>
    match headerGet r.headers "etag" with
    | none => none
    | some bytes =>
      match headerValueToStr bytes with
      | none => none
      | some etag => some (.ok ⟨etag, sequence_number⟩)

/-- The completion/abort tail of `src/bin/multipart-upload.rs::main`
(lines 71–73): `if let Err(_) = complete_multipart_upload(..) { let _ =
abort_multipart_upload(..)?; }` followed by `Ok(())`.  Inputs are the
outcomes the two calls would produce; the result pairs `main`'s return
value with the number of abort calls issued. -/
def finishUpload (completeRes abortRes : Except String Unit) :
    Except String Unit × Nat :=
  match completeRes with
  | .ok _ => (.ok (), 0)
  | .error _ =>
    match abortRes with
    | .ok _ => (.ok (), 1)
    | .error ae => (.error ae, 1)

/-- `src/bin/multipart-upload.rs` constant `MB = 1 * 1024 * 1024`. -/
def MB : Nat := 1 * 1024 * 1024

/-- The fixed chunk size of the read loop: `vec![0u8; 5 * MB]`. -/
def chunkSize : Nat := 5 * MB

/-- The chunk sequence the read loop of `main` (lines 52–67) obtains from
the input byte stream: each iteration reads up to `chunkSize` bytes
(`chunk.truncate(n)` keeps the `n` actually read) and `n == 0` — end of
stream — breaks the loop. -/
def readChunks (data : List Nat) : List (List Nat) :=
  if h : data = [] then []
  else data.take chunkSize :: readChunks (data.drop chunkSize)
termination_by data.length
decreasing_by
  simp only [List.length_drop]
  have h1 : 0 < data.length := List.length_pos.mpr h
  have h2 : 0 < chunkSize := by norm_num [chunkSize, MB]
  omega

/-- The upload loop of `main`: on a non-empty chunk, upload it as part
number `parts.len() + 1` and push the returned `Part` — etag from the
server's response, modelled by `etagOf seq_no chunk` — onto `parts`. -/
def uploadLoop (etagOf : Nat → List Nat → String) (data : List Nat)
    (parts : List UploadPart) : List UploadPart :=
  if h : data = [] then parts
  else
    uploadLoop etagOf (data.drop chunkSize)
      (parts ++ [⟨etagOf (parts.length + 1) (data.take chunkSize), parts.length + 1⟩])
termination_by data.length
decreasing_by
  simp only [List.length_drop]
  have h1 : 0 < data.length := List.length_pos.mpr h
  have h2 : 0 < chunkSize := by norm_num [chunkSize, MB]
  omega

/-- The part list `main` hands to `complete_multipart_upload` for the
given input stream (all part uploads succeeding, with the server
answering `etagOf part_number chunk`): the loop starts from an empty
`parts` vector. -/
def mpUploadParts (etagOf : Nat → List Nat → String) (data : List Nat) : List UploadPart :=
  uploadLoop etagOf data []

/-- Pair each chunk with a 1-based consecutive part number starting at
`n`, recording the server's etag for it. -/
def numberChunks (etagOf : Nat → List Nat → String) : Nat → List (List Nat) → List UploadPart
  | _, [] => []
  | n, c :: cs => ⟨etagOf n c, n⟩ :: numberChunks etagOf (n + 1) cs

/-- Mutable state of `src/cos.rs::ObjectIterator`: the continuation
token, the deque of fetched-but-not-yet-yielded descriptors, and the
completion flag.  `calls` is trace instrumentation counting the
`_list_objects` fetches issued so far; it indexes the server's response
sequence and makes fetch counts observable.  The fixed `bucket`,
`prefix` and `start_after` fields are folded into the server function. -/
structure IterState where
  continuation_token : Option String
  results : List Contents
  complete : Bool
  calls : Nat
deriving DecidableEq, Repr

/-- A fresh iterator (`ObjectIterator::new`): no token, empty buffer,
not complete, no fetch issued yet. -/
def iterInit : IterState := ⟨none, [], false, 0⟩

/-- `self.results.pop_front().unwrap()`: `none` models the panic on an
empty deque. -/
def popFrontUnwrap (s : IterState) : Option (Option Contents × IterState) :=
  match s.results with
  | [] => none
  | i :: rest => some (some i, { s with results := rest })

/-- One call of `ObjectIterator::next` (`src/cos.rs` lines 256–284).
`server k` is the outcome of the `k`-th `_list_objects` call (HTTP and
XML parsing are external).  An empty buffer on a completed iterator
yields `none` (end of sequence); otherwise an empty buffer triggers a
fetch — on error the error is logged and `None` returned with no other
state change, on success the page's descriptors are appended to the
buffer, the token recorded (or the completion flag set when the page
carries none) — and finally the front element is popped and yielded. -/
def iterNext (server : Nat → Except String ListBucketResult) (s : IterState) :
    Option (Option Contents × IterState) :=
  if s.results.length < 1 then
    if s.complete then some (none, s)
    else
      match server s.calls with
      | .error _ => some (none, { s with calls := s.calls + 1 })
      | .ok v =>
        popFrontUnwrap
          { s with
            calls := s.calls + 1
            results := s.results ++ v.contents
            continuation_token :=
              if v.next_token.isSome then v.next_token else s.continuation_token
            complete := if v.next_token.isSome then s.complete else true }
  else popFrontUnwrap s

/-- Run `next` `n` times from `s`, collecting the yielded values and the
final state; `none` propagates a panic in any of the calls. -/
def iterRun (server : Nat → Except String ListBucketResult) :
    Nat → IterState → Option (List (Option Contents) × IterState)
  | 0, s => some ([], s)
  | n + 1, s =>
    (iterNext server s).bind fun p =>
      (iterRun server n p.2).map fun q => (p.1 :: q.1, q.2)

/-- A well-formed finite page sequence as the listing protocol produces
it: every page is non-empty, every page but the last carries a
continuation token, and the last page carries none. -/
def ChainOk : List ListBucketResult → Prop
  | [] => False
  | [v] => v.contents ≠ [] ∧ v.next_token = none
  | v :: w :: rest => v.contents ≠ [] ∧ v.next_token.isSome = true ∧ ChainOk (w :: rest)

/-- The server answers fetches `i, i+1, ...` with the given pages in
order. -/
def serves (server : Nat → Except String ListBucketResult) (i : Nat) :
    List ListBucketResult → Prop
  | [] => True
  | v :: rest => server i = .ok v ∧ serves server (i + 1) rest

/-- All object descriptors of a page sequence, in per-page order. -/
def pagesItems (pages : List ListBucketResult) : List Contents :=
  (pages.map (fun v => v.contents)).flatten

/-- Concrete object descriptors and pages for the two-page pagination
scenario. -/
def itemA : Contents := ⟨"a", "2022", "etag-a", 1, "STANDARD"⟩

def itemB : Contents := ⟨"b", "2022", "etag-b", 2, "STANDARD"⟩

def itemC : Contents := ⟨"c", "2022", "etag-c", 3, "STANDARD"⟩

/-- Page 1 of the scenario: two items plus a continuation token. -/
def page1W : ListBucketResult := ⟨[itemA, itemB], 2, 1000, some "tok"⟩

/-- Page 2 of the scenario: one item, no continuation token. -/
def page2W : ListBucketResult := ⟨[itemC], 1, 1000, none⟩

/-- A server producing the two-page scenario. -/
def serverW : Nat → Except String ListBucketResult := fun i =>
  match i with
  | 0 => .ok page1W
  | _ => .ok page2W

/-- A server whose first fetch fails and whose later fetches serve the
one-item final page. -/
def serverErrW : Nat → Except String ListBucketResult := fun i =>
  match i with
  | 0 => .error "page fetch failed"
  | _ => .ok page2W

theorem listLeB_total (x y : List Char) : listLeB x y = true ∨ listLeB y x = true := by
  induction x generalizing y with
  | nil => left; rfl
  | cons a as ih =>
    cases y with
    | nil => right; rfl
    | cons b bs =>
      rcases Nat.lt_trichotomy a.toNat b.toNat with h | h | h
      · left; simp [listLeB, h]
      · rcases ih bs with h' | h' <;> [left; right] <;> simp [listLeB, h, h']
      · right; simp [listLeB, h, Nat.lt_asymm h]

theorem listLeB_trans {x y z : List Char} (h1 : listLeB x y = true)
    (h2 : listLeB y z = true) : listLeB x z = true := by
  induction x generalizing y z with
  | nil => rfl
  | cons a as ih =>
    cases y with
    | nil => simp [listLeB] at h1
    | cons b bs =>
      cases z with
      | nil => simp [listLeB] at h2
      | cons c cs =>
        simp only [listLeB] at h1 h2 ⊢
        split at h1
        · next hab =>
          rcases Nat.lt_trichotomy a.toNat c.toNat with h | h | h
          · simp [h]
          · simp [h, Nat.lt_irrefl]
            split at h2
            · next hbc => omega
            · split at h2
              · exact absurd h2 (by simp)
              · omega
          · exfalso
            split at h2
            · next hbc => omega
            · split at h2
              · exact absurd h2 (by simp)
              · next h' h'' => omega
        · next hab =>
          split at h1
          · exact absurd h1 (by simp)
          · next hba =>
            have hab' : a.toNat = b.toNat := by omega
            split at h2
            · next hbc => simp [hab' ▸ hbc]
            · split at h2
              · exact absurd h2 (by simp)
              · next h' h'' =>
                have hbc' : b.toNat = c.toNat := by omega
                have : a.toNat = c.toNat := hab'.trans hbc'
                simp [this, Nat.lt_irrefl]
                exact ih h1 h2

/-- C8: the canonical query string lists the parameters in ascending
(lexicographic) key order — the `btreeIter` view is sorted under `keyLe`
and is a permutation of the given parameters — with each key and value
percent-encoded, joined as `key=value` pairs with `&`; in particular
`{"z":"1","a":"2"}` canonicalizes to `"a=2&z=1"`. -/
theorem C8_canonical_query_sorted (params : List (String × String)) :
    List.Sorted keyLe (btreeIter params) ∧
    (btreeIter params).Perm params ∧
    canonicalize_query_params params =
      String.intercalate "&"
        ((btreeIter params).map (fun p => urlencode p.1 ++ "=" ++ urlencode p.2)) ∧
    canonicalize_query_params [("z", "1"), ("a", "2")] = "a=2&z=1" := by
  haveI : IsTotal (String × String) keyLe := ⟨fun p q => listLeB_total p.1.data q.1.data⟩
  haveI : IsTrans (String × String) keyLe := ⟨fun _ _ _ h h' => listLeB_trans h h'⟩
  exact ⟨List.sorted_insertionSort keyLe params, List.perm_insertionSort keyLe params,
    rfl, by decide⟩

/-- C2 counterexample: for the header map `{"Host":"x","X-Amz-Date":"Y"}`
the code's SignedHeaders string is `"Host;X-Amz-Date"` — the original
casing, not the lower-cased `"host;x-amz-date"` the claim requires. -/
theorem C2_counterexample :
    (canonicalize_headers [("Host", "x"), ("X-Amz-Date", "Y")]).2 = "Host;X-Amz-Date" ∧
    "Host;X-Amz-Date" ≠ "host;x-amz-date" := by decide

/-- C2 amended: SignedHeaders is the header names in ascending
(byte-lexicographic) order of the original names, joined with `;` in
their original casing (not lower-cased); the CanonicalHeaders block
renders exactly that same ordered name list, lower-cased, as
`lowercase-name:value\n` lines; for `{"Host":"x","X-Amz-Date":"Y"}`
SignedHeaders is `"Host;X-Amz-Date"` and the block is
`"host:x\nx-amz-date:Y\n"`. -/
theorem C2_amended_signed_headers (headers : List (String × String)) :
    (canonicalize_headers headers).2 =
      String.intercalate ";" ((btreeIter headers).map (fun p => p.1)) ∧
    (canonicalize_headers headers).1 =
      String.join ((btreeIter headers).map (fun p => lowerStr p.1 ++ ":" ++ p.2 ++ "\n")) ∧
    List.Sorted keyLe (btreeIter headers) ∧
    (btreeIter headers).Perm headers ∧
    (canonicalize_headers [("Host", "x"), ("X-Amz-Date", "Y")]).2 = "Host;X-Amz-Date" ∧
    (canonicalize_headers [("Host", "x"), ("X-Amz-Date", "Y")]).1 = "host:x\nx-amz-date:Y\n" := by
  haveI : IsTotal (String × String) keyLe := ⟨fun p q => listLeB_total p.1.data q.1.data⟩
  haveI : IsTrans (String × String) keyLe := ⟨fun _ _ _ h h' => listLeB_trans h h'⟩
  exact ⟨rfl, rfl, List.sorted_insertionSort keyLe headers,
    List.perm_insertionSort keyLe headers, by decide, by decide⟩

/-- C5: `sign` computes exactly the SigV4 scheme the spec describes —
string to sign of three newline-terminated lines (algorithm constant,
`YYYYMMDD'T'HHMMSS'Z'` timestamp, `YYYYMMDD/REGION/SERVICE/aws4_request`
scope) followed by the hex SHA-256 of the canonical request; signing key
chain `HMAC(HMAC(HMAC(HMAC("AWS4"+secret, date), region), service),
"aws4_request")`; `signature = hex(HMAC(signing_key, string_to_sign))`;
header `"<ALGO> Credential=<akid>/<scope>,SignedHeaders=<sh>,Signature=<sig>"`
— i.e. it coincides with `signSpec`, the transliteration of the spec. -/
theorem C5_sign_matches_spec (hmacF : String → String → String)
    (hexF sha256hexF : String → String)
    (access_key_id secret_access_key : String) (date : UtcTime)
    (http_method path : String)
    (query_params headers : List (String × String)) (payload_hash : String) :
    sign hmacF hexF sha256hexF access_key_id secret_access_key date
        http_method path query_params headers payload_hash =
      signSpec hmacF hexF sha256hexF access_key_id secret_access_key date
        http_method path query_params headers payload_hash := by
  simp only [sign, signSpec, String.append_assoc]
  rfl

/-- C9: `sign` is deterministic — two invocations on identical inputs
return the identical `Authorization` header value; as a Lean function of
exactly its arguments (the hash primitives included), the two results are
one and the same term. -/
theorem C9_sign_deterministic (hmacF : String → String → String)
    (hexF sha256hexF : String → String)
    (access_key_id secret_access_key : String) (date : UtcTime)
    (http_method path : String)
    (query_params headers : List (String × String)) (payload_hash : String) :
    sign hmacF hexF sha256hexF access_key_id secret_access_key date
        http_method path query_params headers payload_hash =
      sign hmacF hexF sha256hexF access_key_id secret_access_key date
        http_method path query_params headers payload_hash := rfl

/-- C1: the code discards the completion failure.  When
`complete_multipart_upload` fails and the abort succeeds, `main` returns
`Ok(())` — the completion failure is reported nowhere — and when the
abort also fails, only the abort error is propagated (by `?`), again
dropping the completion failure; one abort call is issued in both cases. -/
theorem C1_completion_error_discarded :
    finishUpload (Except.error "complete failed") (Except.ok ()) = (Except.ok (), 1) ∧
    finishUpload (Except.error "complete failed") (Except.error "abort failed") =
      (Except.error "abort failed", 1) :=
  ⟨rfl, rfl⟩

/-- C4 counterexample: on the parse error raised by a listing body with
no `Contents` field, `_list_objects` returns the distinguished error
`"No contents in bucket"` — an `Err`, not the empty `Ok` result the
claim describes. -/
theorem C4_counterexample :
    handleListParse (Except.error "missing field `Contents`") =
      Except.error "No contents in bucket" ∧
    (handleListParse (Except.error "missing field `Contents`")).isOk = false :=
  ⟨rfl, rfl⟩

/-- C4 amended: a parse error mentioning ``missing field `Contents` ``
(the empty-bucket shape) is mapped to the distinguished error value
`"No contents in bucket"` instead of surfacing the raw parse error;
every other parse error is surfaced unchanged; a successful parse passes
through.  The page fetch does not return an empty `Ok` result in the
empty-bucket case. -/
theorem C4_amended_missing_contents (v : ListBucketResult) (e : String) :
    handleListParse (Except.ok v) = Except.ok v ∧
    (strContainsSub e "missing field `Contents`" = true →
      handleListParse (Except.error e) = Except.error "No contents in bucket") ∧
    (strContainsSub e "missing field `Contents`" = false →
      handleListParse (Except.error e) = Except.error e) := by
  refine ⟨rfl, fun h => ?_, fun h => ?_⟩ <;> simp [handleListParse, h]

/-- C4 amended, witness at concrete inputs: the empty-bucket parse error
is rewritten to the distinguished error. -/
theorem C4_amended_missing_contents_witness :
    strContainsSub "missing field `Contents` at ListBucketResult" "missing field `Contents`" = true ∧
    handleListParse (Except.error "missing field `Contents` at ListBucketResult") =
      Except.error "No contents in bucket" :=
  ⟨by decide,
    (C4_amended_missing_contents ⟨[], 0, 0, none⟩
      "missing field `Contents` at ListBucketResult").2.1 (by decide)⟩

/-- C10: `upload_part` returns `Ok` only for 2xx responses bearing a
well-formed `ETag` header; on a 2xx response with no `ETag` header, or
with an `ETag` value containing a byte that is not visible ASCII, it
panics (modelled by `none`) instead of returning a typed error. -/
theorem C10_upload_part_etag_panic (resp : HttpResponse) (n : Nat) :
    (is_success resp.status = true → headerGet resp.headers "etag" = none →
      upload_part_result resp n = none) ∧
    (is_success resp.status = true →
      ∀ bytes, headerGet resp.headers "etag" = some bytes →
        (∃ b ∈ bytes, visibleAscii b = false) → upload_part_result resp n = none) ∧
    (∀ p, upload_part_result resp n = some (Except.ok p) →
      is_success resp.status = true ∧
      ∃ bytes, headerGet resp.headers "etag" = some bytes ∧
        headerValueToStr bytes = some p.etag) := by
  refine ⟨fun hs hmiss => ?_, fun hs bytes hfound hbad => ?_, fun p hok => ?_⟩
  · simp [upload_part_result, check_response, hs, hmiss]
  · have : bytes.all visibleAscii = false := by
      rcases hbad with ⟨b, hb, hv⟩
      exact List.all_eq_false.mpr ⟨b, hb, by simp [hv]⟩
    simp [upload_part_result, check_response, hs, hfound, headerValueToStr, this]
  · by_cases hs : is_success resp.status = true
    · refine ⟨hs, ?_⟩
      rcases hg : headerGet resp.headers "etag" with _ | bytes
      · simp [upload_part_result, check_response, hs, hg] at hok
      · rcases ht : headerValueToStr bytes with _ | s
        · simp [upload_part_result, check_response, hs, hg, ht] at hok
        · refine ⟨bytes, rfl, ?_⟩
          simp [upload_part_result, check_response, hs, hg, ht] at hok
          rw [ht, ← hok]
    · simp [upload_part_result, check_response, hs] at hok

/-- C10 witness: a 204 response with no `ETag` header makes
`upload_part` panic, and a 200 response whose `ETag` value contains byte
0 panics too. -/
theorem C10_upload_part_etag_panic_witness :
    is_success 204 = true ∧
    headerGet ([] : List (String × List Nat)) "etag" = none ∧
    upload_part_result ⟨204, [], ""⟩ 1 = none ∧
    upload_part_result ⟨200, [("etag", [34, 0, 34])], ""⟩ 2 = none :=
  ⟨by decide, rfl,
    (C10_upload_part_etag_panic ⟨204, [], ""⟩ 1).1 (by decide) rfl,
    (C10_upload_part_etag_panic ⟨200, [("etag", [34, 0, 34])], ""⟩ 2).2.1 (by decide)
      [34, 0, 34] rfl ⟨0, by decide, by decide⟩⟩

theorem chunkSize_pos : 0 < chunkSize := by norm_num [chunkSize, MB]

theorem readChunks_nil : readChunks [] = [] := by
  rw [readChunks]
  simp

theorem readChunks_cons (data : List Nat) (h : data ≠ []) :
    readChunks data = data.take chunkSize :: readChunks (data.drop chunkSize) := by
  rw [readChunks]
  simp [h]

theorem uploadLoop_eq (etagOf : Nat → List Nat → String) :
    ∀ n (data : List Nat), data.length ≤ n → ∀ parts,
      uploadLoop etagOf data parts =
        parts ++ numberChunks etagOf (parts.length + 1) (readChunks data) := by
  intro n
  induction n with
  | zero =>
    intro data hd parts
    have h0 : data = [] := by
      cases data with
      | nil => rfl
      | cons a as => simp at hd
    subst h0
    rw [uploadLoop, readChunks_nil]
    simp [numberChunks]
  | succ n ih =>
    intro data hd parts
    by_cases h : data = []
    · subst h
      rw [uploadLoop, readChunks_nil]
      simp [numberChunks]
    · rw [uploadLoop]
      simp only [dif_neg h]
      have hlen : (data.drop chunkSize).length ≤ n := by
        have h1 : 0 < data.length := List.length_pos.mpr h
        have h2 : 0 < chunkSize := chunkSize_pos
        simp only [List.length_drop]
        omega
      rw [ih (data.drop chunkSize) hlen, readChunks_cons data h]
      simp [numberChunks, List.append_assoc]

theorem numberChunks_map_part_number (etagOf : Nat → List Nat → String) :
    ∀ (cs : List (List Nat)) (n : Nat),
      (numberChunks etagOf n cs).map (fun p => p.part_number) = List.range' n cs.length := by
  intro cs
  induction cs with
  | nil => intro n; simp [numberChunks]
  | cons c cs ih => intro n; simp [numberChunks, List.range'_succ, ih]

theorem readChunks_chunk_len :
    ∀ m (data : List Nat), data.length ≤ m →
      ∀ c ∈ readChunks data, 0 < c.length ∧ c.length ≤ chunkSize := by
  intro m
  induction m with
  | zero =>
    intro data hd c hc
    have h0 : data = [] := by
      cases data with
      | nil => rfl
      | cons a as => simp at hd
    subst h0
    rw [readChunks_nil] at hc
    simp at hc
  | succ m ih =>
    intro data hd c hc
    by_cases h : data = []
    · subst h; rw [readChunks_nil] at hc; simp at hc
    · rw [readChunks_cons data h, List.mem_cons] at hc
      rcases hc with hc | hc
      · subst hc
        have h1 : 0 < data.length := List.length_pos.mpr h
        constructor
        · simp only [List.length_take]
          have := chunkSize_pos
          omega
        · simp only [List.length_take]
          omega
      · have hlen : (data.drop chunkSize).length ≤ m := by
          have h1 : 0 < data.length := List.length_pos.mpr h
          have h2 := chunkSize_pos
          simp only [List.length_drop]
          omega
        exact ih (data.drop chunkSize) hlen c hc

theorem readChunks_dropLast_full :
    ∀ m (data : List Nat), data.length ≤ m →
      ∀ c ∈ (readChunks data).dropLast, c.length = chunkSize := by
  intro m
  induction m with
  | zero =>
    intro data hd c hc
    have h0 : data = [] := by
      cases data with
      | nil => rfl
      | cons a as => simp at hd
    subst h0
    rw [readChunks_nil] at hc
    simp at hc
  | succ m ih =>
    intro data hd c hc
    by_cases h : data = []
    · subst h; rw [readChunks_nil] at hc; simp at hc
    · rw [readChunks_cons data h] at hc
      by_cases hrest : data.drop chunkSize = []
      · rw [hrest, readChunks_nil] at hc
        simp at hc
      · have hne : readChunks (data.drop chunkSize) ≠ [] := by
          rw [readChunks_cons _ hrest]
          simp
        rw [List.dropLast_cons_of_ne_nil hne, List.mem_cons] at hc
        rcases hc with hc | hc
        · subst hc
          have h1 : chunkSize < data.length := by
            by_contra hle
            exact hrest (List.drop_eq_nil_of_le (by omega))
          simp only [List.length_take]
          omega
        · have hlen : (data.drop chunkSize).length ≤ m := by
            have h1 : 0 < data.length := List.length_pos.mpr h
            have h2 := chunkSize_pos
            simp only [List.length_drop]
            omega
          exact ih (data.drop chunkSize) hlen c hc

theorem readChunks_exact (data : List Nat) (h : data.length = chunkSize) :
    readChunks data = [data] := by
  have hne : data ≠ [] := by
    intro e
    subst e
    simp at h
    exact absurd h.symm (Nat.ne_of_gt chunkSize_pos)
  rw [readChunks_cons data hne, List.take_of_length_le (by omega),
    List.drop_eq_nil_of_le (by omega), readChunks_nil]

theorem readChunks_exact_succ (data : List Nat) (h : data.length = chunkSize + 1) :
    readChunks data = [data.take chunkSize, data.drop chunkSize] ∧
      (data.drop chunkSize).length = 1 := by
  have hne : data ≠ [] := by
    intro e
    subst e
    simp at h
  have hdlen : (data.drop chunkSize).length = 1 := by
    simp only [List.length_drop]
    omega
  have hdne : data.drop chunkSize ≠ [] := by
    intro e
    rw [e] at hdlen
    simp at hdlen
  refine ⟨?_, hdlen⟩
  have hcs := chunkSize_pos
  have e1 : readChunks data = data.take chunkSize :: readChunks (data.drop chunkSize) :=
    readChunks_cons data hne
  have e2 : readChunks (data.drop chunkSize) =
      (data.drop chunkSize).take chunkSize ::
        readChunks ((data.drop chunkSize).drop chunkSize) :=
    readChunks_cons _ hdne
  have e3 : (data.drop chunkSize).take chunkSize = data.drop chunkSize :=
    List.take_of_length_le (by omega)
  have e4 : (data.drop chunkSize).drop chunkSize = [] :=
    List.drop_eq_nil_of_le (by omega)
  rw [e1, e2, e3, e4, readChunks_nil]

/-- C6: the multipart orchestrator reads fixed `chunkSize = 5 MiB` chunks
(every chunk is non-empty and at most `chunkSize` long, and every chunk
except possibly the last is exactly `chunkSize` long), numbers them
1-based and strictly increasing in read order (the part numbers handed to
complete are exactly `1, 2, ..., #chunks` — no duplicates), hands
complete exactly the `(part_number, etag)` pairs the upload-part calls
returned in ascending order, uploads nothing for an empty stream, and at
the boundaries: a stream of exactly `chunkSize` bytes yields one chunk
(hence one part) and a stream of `chunkSize + 1` bytes yields two chunks,
the second of length 1. -/
theorem C6_multipart_chunking (etagOf : Nat → List Nat → String) (data : List Nat) :
    mpUploadParts etagOf data = numberChunks etagOf 1 (readChunks data) ∧
    (mpUploadParts etagOf data).map (fun p => p.part_number) =
      List.range' 1 (readChunks data).length ∧
    (∀ c ∈ readChunks data, 0 < c.length ∧ c.length ≤ chunkSize) ∧
    (∀ c ∈ (readChunks data).dropLast, c.length = chunkSize) ∧
    mpUploadParts etagOf [] = [] ∧
    (data.length = chunkSize → readChunks data = [data]) ∧
    (data.length = chunkSize + 1 →
      readChunks data = [data.take chunkSize, data.drop chunkSize] ∧
        (data.drop chunkSize).length = 1) := by
  have heq : mpUploadParts etagOf data = numberChunks etagOf 1 (readChunks data) := by
    have := uploadLoop_eq etagOf data.length data (le_refl _) []
    simpa [mpUploadParts] using this
  refine ⟨heq, ?_, ?_, ?_, ?_, readChunks_exact data, readChunks_exact_succ data⟩
  · rw [heq, numberChunks_map_part_number]
  · exact readChunks_chunk_len data.length data (le_refl _)
  · exact readChunks_dropLast_full data.length data (le_refl _)
  · have := uploadLoop_eq etagOf 0 [] (by simp) []
    simpa [mpUploadParts, readChunks_nil, numberChunks] using this

/-- C6 witness: at the boundary inputs — a stream of exactly `chunkSize`
zero bytes and one of `chunkSize + 1` zero bytes — the chunker produces
one chunk, respectively two chunks the second of which has length 1. -/
theorem C6_multipart_chunking_witness :
    (List.replicate chunkSize 0).length = chunkSize ∧
    readChunks (List.replicate chunkSize 0) = [List.replicate chunkSize 0] ∧
    (List.replicate (chunkSize + 1) 0).length = chunkSize + 1 ∧
    readChunks (List.replicate (chunkSize + 1) 0) =
      [(List.replicate (chunkSize + 1) 0).take chunkSize,
        (List.replicate (chunkSize + 1) 0).drop chunkSize] ∧
    ((List.replicate (chunkSize + 1) 0).drop chunkSize).length = 1 := by
  refine ⟨List.length_replicate chunkSize 0, ?_, List.length_replicate (chunkSize + 1) 0, ?_, ?_⟩
  · exact (C6_multipart_chunking (fun _ _ => "") (List.replicate chunkSize 0)).2.2.2.2.2.1
      (List.length_replicate chunkSize 0)
  · exact ((C6_multipart_chunking (fun _ _ => "") (List.replicate (chunkSize + 1) 0)).2.2.2.2.2.2
      (List.length_replicate (chunkSize + 1) 0)).1
  · exact ((C6_multipart_chunking (fun _ _ => "") (List.replicate (chunkSize + 1) 0)).2.2.2.2.2.2
      (List.length_replicate (chunkSize + 1) 0)).2

theorem iterNext_pop (server : Nat → Except String ListBucketResult) (s : IterState)
    (i : Contents) (rest : List Contents) (h : s.results = i :: rest) :
    iterNext server s = some (some i, { s with results := rest }) := by
  simp [iterNext, h, popFrontUnwrap]

theorem iterNext_exhausted (server : Nat → Except String ListBucketResult) (s : IterState)
    (h1 : s.results = []) (h2 : s.complete = true) :
    iterNext server s = some (none, s) := by
  simp [iterNext, h1, h2]

theorem iterNext_fetch_error (server : Nat → Except String ListBucketResult) (s : IterState)
    (e : String) (h1 : s.results = []) (h2 : s.complete = false)
    (he : server s.calls = Except.error e) :
    iterNext server s = some (none, { s with calls := s.calls + 1 }) := by
  simp [iterNext, h1, h2, he]

theorem iterNext_fetch_first (server : Nat → Except String ListBucketResult) (s : IterState)
    (v : ListBucketResult) (i : Contents) (restc : List Contents)
    (h1 : s.results = []) (h2 : s.complete = false)
    (hv : server s.calls = Except.ok v) (hcv : v.contents = i :: restc) :
    iterNext server s = some (some i,
      ⟨if v.next_token.isSome then v.next_token else s.continuation_token,
        restc,
        if v.next_token.isSome then false else true,
        s.calls + 1⟩) := by
  simp [iterNext, h1, h2, hv, popFrontUnwrap, hcv]

theorem iterRun_drain (server : Nat → Except String ListBucketResult) :
    ∀ (buf : List Contents) (s : IterState), s.results = buf →
      iterRun server buf.length s = some (buf.map some, { s with results := [] }) := by
  intro buf
  induction buf with
  | nil =>
    intro s h
    cases s
    simp at h
    subst h
    simp [iterRun]
  | cons i rest ih =>
    intro s h
    rw [List.length_cons]
    simp only [iterRun, iterNext_pop server s i rest h, Option.some_bind]
    rw [ih { s with results := rest } rfl]
    simp

theorem iterRun_exhausted (server : Nat → Except String ListBucketResult) (s : IterState)
    (h1 : s.results = []) (h2 : s.complete = true) :
    ∀ n, iterRun server n s = some (List.replicate n none, s) := by
  intro n
  induction n with
  | zero => simp [iterRun]
  | succ n ih =>
    simp [iterRun, iterNext_exhausted server s h1 h2, ih, List.replicate_succ]

theorem iterRun_add (server : Nat → Except String ListBucketResult) :
    ∀ (a b : Nat) (s : IterState),
      iterRun server (a + b) s =
        (iterRun server a s).bind fun p =>
          (iterRun server b p.2).map fun q => (p.1 ++ q.1, q.2) := by
  intro a
  induction a with
  | zero =>
    intro b s
    rw [Nat.zero_add]
    rcases hb : iterRun server b s with _ | q
    · simp [iterRun, hb]
    · simp [iterRun, hb]
  | succ a ih =>
    intro b s
    have hn : a + 1 + b = (a + b) + 1 := by omega
    rw [hn]
    simp only [iterRun]
    rcases hx : iterNext server s with _ | p
    · simp
    · simp only [Option.some_bind]
      rw [ih b p.2]
      rcases ha : iterRun server a p.2 with _ | r
      · simp [ha]
      · rcases hb : iterRun server b r.2 with _ | q
        · simp [ha, hb]
        · simp [ha, hb]

theorem iterRun_pages (server : Nat → Except String ListBucketResult) :
    ∀ (pages : List ListBucketResult) (s : IterState),
      ChainOk pages → serves server s.calls pages →
      s.results = [] → s.complete = false →
      ∀ m, ∃ tok, iterRun server ((pagesItems pages).length + m) s =
        some ((pagesItems pages).map some ++ List.replicate m none,
          ⟨tok, [], true, s.calls + pages.length⟩) := by
  intro pages
  induction pages with
  | nil =>
    intro s hchain
    exact absurd hchain (fun h => h)
  | cons v rest ih =>
    intro s hchain hserves hres hcomp m
    obtain ⟨hv, hserves'⟩ := hserves
    cases rest with
    | nil =>
      obtain ⟨hne, htok⟩ := hchain
      rcases hcv : v.contents with _ | ⟨i, restc⟩
      · exact absurd hcv hne
      have hstep := iterNext_fetch_first server s v i restc hres hcomp hv hcv
      simp only [htok, Option.isSome_none, Bool.false_eq_true, if_false] at hstep
      have hlen : (pagesItems [v]).length + m = (restc.length + m) + 1 := by
        simp [pagesItems, hcv]
        omega
      refine ⟨s.continuation_token, ?_⟩
      rw [hlen]
      simp only [iterRun]
      rw [hstep]
      simp only [Option.some_bind]
      rw [iterRun_add server restc.length m _]
      rw [iterRun_drain server restc ⟨s.continuation_token, restc, true, s.calls + 1⟩ rfl]
      simp only [Option.some_bind]
      rw [iterRun_exhausted server ⟨s.continuation_token, [], true, s.calls + 1⟩ rfl rfl m]
      simp [pagesItems, hcv]
    | cons w rest2 =>
      obtain ⟨hne, hsome, hchain'⟩ := hchain
      rcases hcv : v.contents with _ | ⟨i, restc⟩
      · exact absurd hcv hne
      have hstep := iterNext_fetch_first server s v i restc hres hcomp hv hcv
      simp only [hsome, if_true] at hstep
      have hdrain := iterRun_drain server restc ⟨v.next_token, restc, false, s.calls + 1⟩ rfl
      obtain ⟨tok, hrest⟩ :=
        ih ⟨v.next_token, [], false, s.calls + 1⟩ hchain' hserves' rfl rfl m
      refine ⟨tok, ?_⟩
      have hlen : (pagesItems (v :: w :: rest2)).length + m =
          (restc.length + ((pagesItems (w :: rest2)).length + m)) + 1 := by
        simp [pagesItems, hcv]
        omega
      rw [hlen]
      simp only [iterRun]
      rw [hstep]
      simp only [Option.some_bind]
      rw [iterRun_add server restc.length ((pagesItems (w :: rest2)).length + m) _]
      rw [hdrain]
      simp only [Option.some_bind]
      rw [hrest]
      simp only [Option.map_some]
      simp [pagesItems, hcv]
      omega

/-- C7: for every well-formed page sequence served in order (each page
non-empty, all but the last carrying a continuation token, the last
carrying none), the iterator yields exactly the pages' items once each,
in per-page order, then signals end-of-sequence on every further request
(idempotent exhaustion), issuing exactly one fetch per page and none
afterwards; in particular, for page 1 = two items + token and page 2 =
one item + no token, exactly three items are yielded in order followed by
end-of-sequence signals. -/
theorem C7_pagination_exhaustion (server : Nat → Except String ListBucketResult)
    (pages : List ListBucketResult) (s : IterState) (m : Nat)
    (hchain : ChainOk pages) (hserves : serves server s.calls pages)
    (hres : s.results = []) (hcomp : s.complete = false) :
    (∃ tok, iterRun server ((pagesItems pages).length + m) s =
      some ((pagesItems pages).map some ++ List.replicate m none,
        ⟨tok, [], true, s.calls + pages.length⟩)) ∧
    iterRun serverW 5 iterInit =
      some ([some itemA, some itemB, some itemC, none, none],
        ⟨some "tok", [], true, 2⟩) :=
  ⟨iterRun_pages server pages s hchain hserves hres hcomp m, rfl⟩

/-- C7 witness: the two-page scenario is a well-formed chain and running
the iterator for all three items plus two extra requests matches the
general theorem's trace. -/
theorem C7_pagination_exhaustion_witness :
    ChainOk [page1W, page2W] ∧
    serves serverW 0 [page1W, page2W] ∧
    (∃ tok, iterRun serverW ((pagesItems [page1W, page2W]).length + 2) iterInit =
      some ((pagesItems [page1W, page2W]).map some ++ List.replicate 2 none,
        ⟨tok, [], true, iterInit.calls + ([page1W, page2W] : List ListBucketResult).length⟩)) := by
  have hchain : ChainOk [page1W, page2W] :=
    ⟨by simp [page1W], rfl, by simp [page2W], rfl⟩
  have hserves : serves serverW 0 [page1W, page2W] := ⟨rfl, rfl, trivial⟩
  exact ⟨hchain, hserves,
    (C7_pagination_exhaustion serverW [page1W, page2W] iterInit 2 hchain hserves rfl rfl).1⟩

/-- C3 counterexample: with a server whose first fetch fails and whose
second serves a one-item final page, the first `next` signals
end-of-sequence but leaves `complete = false`; the second `next` issues a
new fetch (the call counter reaches 2) and yields an item — the error is
not latched, contradicting the claim that every request after an
error-caused end-of-sequence signals end-of-sequence without fetching. -/
theorem C3_counterexample :
    iterRun serverErrW 1 iterInit = some ([none], ⟨none, [], false, 1⟩) ∧
    iterRun serverErrW 2 iterInit =
      some ([none, some itemC], ⟨none, [], true, 2⟩) :=
  ⟨rfl, rfl⟩

/-- C3 amended: buffered items are always yielded before any fetch (a
fetch happens only on an empty buffer), and a failing page fetch makes
that `next` call signal end-of-sequence; but the failure is not latched —
the completion flag stays `false` and the buffer/token are unchanged (only
the fetch counter advances), so a subsequent request issues a new page
fetch rather than signalling end-of-sequence. -/
theorem C3_amended_error_not_sticky (server : Nat → Except String ListBucketResult)
    (s : IterState) (e : String) (i : Contents) (rest : List Contents) :
    (s.results = i :: rest →
      iterNext server s = some (some i, { s with results := rest })) ∧
    (s.results = [] → s.complete = false → server s.calls = Except.error e →
      iterNext server s = some (none, ⟨s.continuation_token, [], false, s.calls + 1⟩)) := by
  refine ⟨fun h => iterNext_pop server s i rest h, fun h1 h2 he => ?_⟩
  rw [iterNext_fetch_error server s e h1 h2 he]
  cases s with
  | mk ct res comp ca =>
    subst h1
    subst h2
    rfl

/-- C3 amended, witness: a buffered item is yielded untouched by the
failing server, and the error-signalling call leaves the iterator ready
to fetch again. -/
theorem C3_amended_error_not_sticky_witness :
    iterNext serverErrW ⟨none, [itemC], false, 0⟩ = some (some itemC, ⟨none, [], false, 0⟩) ∧
    iterNext serverErrW ⟨none, [], false, 0⟩ = some (none, ⟨none, [], false, 1⟩) :=
  ⟨(C3_amended_error_not_sticky serverErrW ⟨none, [itemC], false, 0⟩ "page fetch failed"
      itemC []).1 rfl,
    (C3_amended_error_not_sticky serverErrW ⟨none, [], false, 0⟩ "page fetch failed"
      itemC []).2 rfl rfl rfl⟩
